import Mathlib

/-!
Verification of the Monte Carlo CURAND option pricer.

The development shallowly embeds the pricing engine
(`src/unnamed/part_000`, together with `src/inc/genericoption.h`) over the
rationals.  Machine reals are modelled by `ℚ`; the transcendental functions
`exp` and `sqrt` that the source calls are passed in as abstract function
parameters (`expQ`, `sqrtQ`), and the discount factor `exp (-r * tenor)` is
passed in as an abstract value `disc`, so that every definition stays
executable while keeping the arithmetic structure of the source intact.
Device memory is modelled as a total function `ℕ → ℚ` updated pointwise.
-/

namespace MonteCarlo

/-- The `CallPut` enumeration of `genericoption.h`. -/
inductive CallPut where
  | Call : CallPut
  | Put : CallPut
deriving DecidableEq

/-- The `genericOption` record of `genericoption.h`: contract parameters,
the golden/expected value, the result fields and the option type. -/
structure genericOption where
  spot : ℚ
  strike : ℚ
  r : ℚ
  sigma : ℚ
  tenor : ℚ
  dt : ℚ
  barrier : ℚ
  golden : ℚ
  valueAsian : ℚ
  valuePlainVanilla : ℚ
  valuePlainVanillaCPU : ℚ
  valueKnockout : ℚ
  valueKnockin : ℚ
  valueLookback : ℚ
  valueALK : ℚ
  type : CallPut

/-- `numTimesteps` as derived by the engine:
`int numTimesteps = static_cast<int>(option.tenor / option.dt)`
(truncation of the nonnegative quotient is its floor). -/
def numTimestepsOf (opt : genericOption) : ℕ :=
  (⌊opt.tenor / opt.dt⌋).toNat

/-- One path of the column-major path matrix: the kernels read the path of
simulation `i` via `const Real *path = paths + i` followed by
`path += numSims` per time step, i.e. entry `t` lives at `t * numSims + i`. -/
def pathOf (paths : ℕ → ℚ) (numSims i : ℕ) : ℕ → ℚ :=
  fun t => paths (t * numSims + i)

/-- The `finval` accumulator of `computeValuePlainVanilla` and
`computeValueKnockoutin`: initialised to `0`, overwritten with `*path`
(`p t`) on every iteration of the time-step loop, so after `T` iterations it
holds the last stored entry (or the initial `0` when `T = 0`). -/
def finvalLoop (p : ℕ → ℚ) : ℕ → ℚ
  | 0 => 0
  | t + 1 => p t

/-- The `avg` accumulator of `computeValueAsian`: `avg += *path` over the
time-step loop. -/
def avgLoop (p : ℕ → ℚ) : ℕ → ℚ
  | 0 => 0
  | t + 1 => avgLoop p t + p t

/-- The `(finval, valmin)` pair of `computeValueLookback`'s time-step loop:
`valmin` starts at `1`, and `if (valmin > finval) valmin = finval`. -/
def lookbackScan (p : ℕ → ℚ) : ℕ → ℚ × ℚ
  | 0 => (0, 1)
  | t + 1 =>
    let prev := lookbackScan p t
    let finval := p t
    (finval, if prev.2 > finval then finval else prev.2)

/-- The `(finval, killer)` pair of `computeValueKnockoutin`'s time-step loop:
`killer` starts at `1` and is set to `0` whenever `finval * spot > barrier`. -/
def koScan (spot barrier : ℚ) (p : ℕ → ℚ) : ℕ → ℚ × ℚ
  | 0 => (0, 1)
  | t + 1 =>
    let prev := koScan spot barrier p t
    let finval := p t
    (finval, if finval * spot > barrier then 0 else prev.2)

/-- Per-path payoff of `computeValuePlainVanilla`:
`finval = finval * spot; payoff = finval - strike;`
`if (type == Put) payoff = -payoff; payoff = max(0, payoff)`. -/
def pvPerPath (opt : genericOption) (p : ℕ → ℚ) (T : ℕ) : ℚ :=
  let finval := finvalLoop p T * opt.spot
  let payoff := finval - opt.strike
  let payoff2 := if opt.type = CallPut.Put then -payoff else payoff
  max 0 payoff2

/-- Per-path payoff of `computeValueAsian`:
`avg = avg * spot / numTimesteps; payoff = avg - strike;` then the same
sign flip and clamp as the plain vanilla kernel. -/
def asianPerPath (opt : genericOption) (p : ℕ → ℚ) (T : ℕ) : ℚ :=
  let avg := avgLoop p T * opt.spot / (T : ℚ)
  let payoff := avg - opt.strike
  let payoff2 := if opt.type = CallPut.Put then -payoff else payoff
  max 0 payoff2

/-- Per-path payoff of `computeValueLookback`:
`finval = finval * spot; payoff = finval - valmin * spot;`
`payoff = max(0, payoff)` (no Put branch in the source). -/
def lookbackPerPath (opt : genericOption) (p : ℕ → ℚ) (T : ℕ) : ℚ :=
  let sc := lookbackScan p T
  let finval := sc.1 * opt.spot
  let payoff := finval - sc.2 * opt.spot
  max 0 payoff

/-- Per-path knockout payoff of `computeValueKnockoutin`:
`finvalknockout = finval * spot * killer; payoffknockout = finvalknockout - strike;`
then the sign flip for Put and the clamp. -/
def koPerPath (opt : genericOption) (p : ℕ → ℚ) (T : ℕ) : ℚ :=
  let sc := koScan opt.spot opt.barrier p T
  let finvalknockout := sc.1 * opt.spot * sc.2
  let payoff := finvalknockout - opt.strike
  let payoff2 := if opt.type = CallPut.Put then -payoff else payoff
  max 0 payoff2

/-- Per-path knockin payoff of `computeValueKnockoutin`:
`finvalknockin = finval * spot * (1 - killer); payoffknockin = finvalknockin - strike;`
then the sign flip for Put and the clamp. -/
def kiPerPath (opt : genericOption) (p : ℕ → ℚ) (T : ℕ) : ℚ :=
  let sc := koScan opt.spot opt.barrier p T
  let finvalknockin := sc.1 * opt.spot * (1 - sc.2)
  let payoff := finvalknockin - opt.strike
  let payoff2 := if opt.type = CallPut.Put then -payoff else payoff
  max 0 payoff2

/-! Basic characterisations of the per-path scans. -/

theorem koScan_fst (spot barrier : ℚ) (p : ℕ → ℚ) (T : ℕ) :
    (koScan spot barrier p T).1 = finvalLoop p T := by
  cases T with
  | zero => rfl
  | succ t => rfl

theorem lookbackScan_fst (p : ℕ → ℚ) (T : ℕ) :
    (lookbackScan p T).1 = finvalLoop p T := by
  cases T with
  | zero => rfl
  | succ t => rfl

theorem finvalLoop_of_pos (p : ℕ → ℚ) (T : ℕ) (hT : 1 ≤ T) :
    finvalLoop p T = p (T - 1) := by
  cases T with
  | zero => omega
  | succ t => rfl

/-- The `killer` flag is `0` exactly when some stored entry breaches the
barrier, and `1` otherwise. -/
theorem koScan_snd (spot barrier : ℚ) (p : ℕ → ℚ) (T : ℕ) :
    (koScan spot barrier p T).2 =
      if ∃ t, t < T ∧ p t * spot > barrier then 0 else 1 := by
  induction T with
  | zero => simp [koScan]
  | succ T ih =>
    have hsplit : (∃ t, t < T + 1 ∧ p t * spot > barrier) ↔
        ((∃ t, t < T ∧ p t * spot > barrier) ∨ p T * spot > barrier) := by
      constructor
      · rintro ⟨t, ht, hgt⟩
        rcases Nat.lt_succ_iff_lt_or_eq.mp ht with h | h
        · exact Or.inl ⟨t, h, hgt⟩
        · exact Or.inr (h ▸ hgt)
      · rintro (⟨t, ht, hgt⟩ | h)
        · exact ⟨t, Nat.lt_succ_of_lt ht, hgt⟩
        · exact ⟨T, Nat.lt_succ_self T, h⟩
    simp only [koScan, ih, hsplit]
    by_cases hbr : p T * spot > barrier
    · simp [hbr]
    · simp [hbr]

/-- The lookback `valmin` accumulator computes the minimum of the initial
value `1` and the stored entries. -/
theorem lookbackScan_snd (p : ℕ → ℚ) (T : ℕ) :
    (lookbackScan p T).2 = ((List.range T).map p).foldl min 1 := by
  induction T with
  | zero => simp [lookbackScan]
  | succ T ih =>
    rw [List.range_succ, List.map_append, List.foldl_append]
    simp only [lookbackScan, List.map_cons, List.map_nil, List.foldl_cons,
      List.foldl_nil, ← ih]
    rcases lt_or_ge (p T) (lookbackScan p T).2 with h | h
    · rw [if_pos h, min_eq_right h.le]
    · rw [if_neg (not_lt.mpr h), min_eq_left h]

/-! Concrete option records used by counterexamples and witnesses. -/

/-- A Put option with `spot = 1`, `strike = 5`, `barrier = 1`. -/
def putOpt : genericOption :=
  { spot := 1, strike := 5, r := 0, sigma := 0, tenor := 1, dt := 1, barrier := 1,
    golden := 0, valueAsian := 0, valuePlainVanilla := 0, valuePlainVanillaCPU := 0,
    valueKnockout := 0, valueKnockin := 0, valueLookback := 0, valueALK := 0,
    type := CallPut.Put }

/-- A Call option with the test driver's contract parameters
(`spot = 40`, `strike = 35`, `barrier = 45`). -/
def callOpt : genericOption :=
  { spot := 40, strike := 35, r := 3/100, sigma := 1/5, tenor := 1, dt := 1, barrier := 45,
    golden := 0, valueAsian := 0, valuePlainVanilla := 0, valuePlainVanillaCPU := 0,
    valueKnockout := 0, valueKnockin := 0, valueLookback := 0, valueALK := 0,
    type := CallPut.Call }

/-- Claim C1, counterexample: for a Put option (`spot = 1`, `strike = 5`,
`barrier = 1`) and the one-step path with entry `2`, the barrier is breached
(`2 * 1 > 1`), yet the knockout evaluator's per-path payoff is `5`
(`max(0, -(0 - 5))`), not `0` as the claim states. -/
theorem c1_put_breach_counterexample :
    (∃ t, t < 1 ∧ (fun _ : ℕ => (2 : ℚ)) t * putOpt.spot > putOpt.barrier) ∧
    koPerPath putOpt (fun _ : ℕ => (2 : ℚ)) 1 = 5 ∧ (5 : ℚ) ≠ 0 := by
  refine ⟨⟨0, Nat.zero_lt_one, by norm_num [putOpt]⟩, ?_, by norm_num⟩
  norm_num [koPerPath, koScan, putOpt, max_def]

/-- Claim C1 (amended): the knockout/knockin evaluator zeroes the
conditional final value, not the payoff.  The per-path knockout payoff is
`max(0, ±(condFV - strike))` where `condFV` is the final value if
`p t * spot > barrier` holds for no stored time step `t` and `0` otherwise
(so for a Put a knocked-out path pays `max(0, strike)`, not `0`); the
knockin payoff is symmetric with the conditional final value swapped. -/
theorem c1_knockoutin_payoff_amended (opt : genericOption) (p : ℕ → ℚ) (T : ℕ)
    (hT : 1 ≤ T) :
    koPerPath opt p T =
      max 0 ((if opt.type = CallPut.Put then (-1 : ℚ) else 1) *
        ((if ∃ t, t < T ∧ p t * opt.spot > opt.barrier then 0 else p (T - 1) * opt.spot)
          - opt.strike)) ∧
    kiPerPath opt p T =
      max 0 ((if opt.type = CallPut.Put then (-1 : ℚ) else 1) *
        ((if ∃ t, t < T ∧ p t * opt.spot > opt.barrier then p (T - 1) * opt.spot else 0)
          - opt.strike)) := by
  refine ⟨?_, ?_⟩ <;>
  · simp only [koPerPath, kiPerPath, koScan_fst, finvalLoop_of_pos p T hT, koScan_snd]
    by_cases hbr : ∃ t, t < T ∧ p t * opt.spot > opt.barrier <;>
      by_cases hput : opt.type = CallPut.Put <;>
        simp [hbr, hput]

/-- Witness for C1 at `putOpt`, the constant path `2` and one time step. -/
theorem c1_knockoutin_payoff_witness :
    1 ≤ 1 ∧
    (koPerPath putOpt (fun _ : ℕ => (2 : ℚ)) 1 =
      max 0 ((if putOpt.type = CallPut.Put then (-1 : ℚ) else 1) *
        ((if ∃ t, t < 1 ∧ (fun _ : ℕ => (2 : ℚ)) t * putOpt.spot > putOpt.barrier then 0
          else (fun _ : ℕ => (2 : ℚ)) (1 - 1) * putOpt.spot) - putOpt.strike)) ∧
    kiPerPath putOpt (fun _ : ℕ => (2 : ℚ)) 1 =
      max 0 ((if putOpt.type = CallPut.Put then (-1 : ℚ) else 1) *
        ((if ∃ t, t < 1 ∧ (fun _ : ℕ => (2 : ℚ)) t * putOpt.spot > putOpt.barrier then
          (fun _ : ℕ => (2 : ℚ)) (1 - 1) * putOpt.spot else 0) - putOpt.strike))) :=
  ⟨le_refl 1, c1_knockoutin_payoff_amended putOpt (fun _ : ℕ => (2 : ℚ)) 1 (le_refl 1)⟩

/-- Claim C4, counterexample: with `spot = 1` and the one-step path with
entry `2`, the lookback evaluator pays `1` (its running minimum starts at
the initial normalized value `1`), while the claimed formula — the minimum
taken over exactly the stored entries, here just `p 0 = 2` — pays `0`. -/
theorem c4_lookback_floor_counterexample :
    lookbackPerPath putOpt (fun _ : ℕ => (2 : ℚ)) 1 = 1 ∧
    max (0 : ℚ)
      ((fun _ : ℕ => (2 : ℚ)) 0 * putOpt.spot -
        putOpt.spot * (fun _ : ℕ => (2 : ℚ)) 0) = 0 ∧
    (1 : ℚ) ≠ 0 := by
  refine ⟨?_, by norm_num [putOpt], by norm_num⟩
  norm_num [lookbackPerPath, lookbackScan, putOpt, max_def]

/-- Claim C4 (amended): the lookback per-path payoff is
`max(0, spot * p (T-1) - spot * floor)` where the floor is the minimum of
the initial value `1` and the stored entries — `valmin` is initialised to
`1`, so the minimum is not taken over the stored entries alone. -/
theorem c4_lookback_payoff_amended (opt : genericOption) (p : ℕ → ℚ) (T : ℕ)
    (hT : 1 ≤ T) :
    lookbackPerPath opt p T =
      max 0 (p (T - 1) * opt.spot - ((List.range T).map p).foldl min 1 * opt.spot) := by
  simp only [lookbackPerPath, lookbackScan_fst, finvalLoop_of_pos p T hT,
    lookbackScan_snd]

/-- Witness for C4 at `putOpt` and the constant path `2`. -/
theorem c4_lookback_payoff_witness :
    1 ≤ 1 ∧
    lookbackPerPath putOpt (fun _ : ℕ => (2 : ℚ)) 1 =
      max 0 ((fun _ : ℕ => (2 : ℚ)) (1 - 1) * putOpt.spot -
        ((List.range 1).map (fun _ : ℕ => (2 : ℚ))).foldl min 1 * putOpt.spot) :=
  ⟨le_refl 1, c4_lookback_payoff_amended putOpt (fun _ : ℕ => (2 : ℚ)) 1 (le_refl 1)⟩

/-- Claim C5, counterexample: for the driver's Call option
(`spot = 40`, `strike = 35`) and the one-step path with entry `3/2`, the
lookback payoff is `max(0, 60 - 40) = 20` while the PlainVanilla payoff on
the same final value is `max(0, 60 - 35) = 25`, so the lookback payoff is
not `≥` the PlainVanilla payoff. -/
theorem c5_lookback_vs_vanilla_counterexample :
    lookbackPerPath callOpt (fun _ : ℕ => (3 / 2 : ℚ)) 1 = 20 ∧
    pvPerPath callOpt (fun _ : ℕ => (3 / 2 : ℚ)) 1 = 25 ∧
    ¬ (pvPerPath callOpt (fun _ : ℕ => (3 / 2 : ℚ)) 1 ≤
        lookbackPerPath callOpt (fun _ : ℕ => (3 / 2 : ℚ)) 1) := by
  have hlb : lookbackPerPath callOpt (fun _ : ℕ => (3 / 2 : ℚ)) 1 = 20 := by
    norm_num [lookbackPerPath, lookbackScan, callOpt, max_def, finvalLoop]
  have hpv : pvPerPath callOpt (fun _ : ℕ => (3 / 2 : ℚ)) 1 = 25 := by
    have hcp : (CallPut.Call = CallPut.Put) = False := by simp
    norm_num [pvPerPath, finvalLoop, callOpt, max_def, hcp]
  refine ⟨hlb, hpv, ?_⟩
  rw [hlb, hpv]
  norm_num

/-- Claim C5 (amended): the lookback per-path payoff is always `≥ 0`; it
dominates the PlainVanilla per-path payoff only for a Call and only when
the floor `valmin * spot` is at most the strike (the unconditional
comparison fails because the strike enters the PlainVanilla payoff but not
the lookback payoff). -/
theorem c5_lookback_bounds_amended (opt : genericOption) (p : ℕ → ℚ) (T : ℕ) :
    0 ≤ lookbackPerPath opt p T ∧
    (opt.type = CallPut.Call → (lookbackScan p T).2 * opt.spot ≤ opt.strike →
      pvPerPath opt p T ≤ lookbackPerPath opt p T) := by
  constructor
  · exact le_max_left 0 _
  · intro hc hfloor
    simp only [pvPerPath, lookbackPerPath, lookbackScan_fst, hc]
    have hne : ¬ (CallPut.Call = CallPut.Put) := by decide
    rw [if_neg hne]
    exact max_le_max le_rfl (by linarith)

/-- Witness for C5 at `callOpt` and the constant path `1/2` (here
`valmin * spot = 20 ≤ 35`). -/
theorem c5_lookback_bounds_witness :
    callOpt.type = CallPut.Call ∧
    (lookbackScan (fun _ : ℕ => (1 / 2 : ℚ)) 1).2 * callOpt.spot ≤ callOpt.strike ∧
    pvPerPath callOpt (fun _ : ℕ => (1 / 2 : ℚ)) 1 ≤
      lookbackPerPath callOpt (fun _ : ℕ => (1 / 2 : ℚ)) 1 :=
  ⟨rfl, by norm_num [lookbackScan, callOpt],
    (c5_lookback_bounds_amended callOpt (fun _ : ℕ => (1 / 2 : ℚ)) 1).2 rfl
      (by norm_num [lookbackScan, callOpt])⟩

/-! The grid-stride accumulation loop shared by all valuation kernels:
`for (i = tid; i < numSims; i += step) sum += payoff(i)`.  The recursion is
fuelled; every kernel call uses `fuel = numSims`, which suffices whenever the
stride is positive. -/

def gridSum (f : ℕ → ℚ) (n stride : ℕ) : ℕ → ℕ → ℚ
  | 0, _ => 0
  | fuel + 1, i => if i < n then f i + gridSum f n stride fuel (i + stride) else 0

/-- One halving step of `reduce_sum`:
`if (ltid < s) sdata[ltid] += sdata[ltid + s]`. -/
def reduceHalf (d : ℕ → ℚ) (s : ℕ) : ℕ → ℚ :=
  fun j => if j < s then d j + d (j + s) else d j

/-- The shared-memory loop of `reduce_sum`:
`for (s = blockDim/2; s > 0; s >>= 1)` with a barrier after each step
(modelled by sequential composition of the halving steps). -/
def reduceLoop (d : ℕ → ℚ) (s : ℕ) : ℕ → ℚ :=
  if h : s = 0 then d else reduceLoop (reduceHalf d s) (s / 2)
termination_by s
decreasing_by exact Nat.div_lt_self (Nat.pos_of_ne_zero h) one_lt_two

/-- The device function `reduce_sum`: run the halving loop starting at
`blockDim / 2` and return `sdata[0]`. -/
def reduce_sum (blockDim : ℕ) (d : ℕ → ℚ) : ℚ :=
  reduceLoop d (blockDim / 2) 0

/-- What one block `bid` of a valuation kernel stores into `values[bid]`:
the block-level reduction of the per-thread grid-stride partial sums, the
thread of local id `ltid` having global id `bid * blockX + ltid` and stride
`gridDim.x * blockDim.x`. -/
def blockPartial (perPath : ℕ → ℚ) (numSims gridX blockX bid : ℕ) : ℚ :=
  reduce_sum blockX
    (fun ltid => gridSum perPath numSims (gridX * blockX) numSims (bid * blockX + ltid))

/-- The per-block output array of the `computeValuePlainVanilla` kernel. -/
def computeValuePlainVanilla (paths : ℕ → ℚ) (opt : genericOption)
    (numSims numTimesteps gridX blockX : ℕ) : ℕ → ℚ :=
  fun bid =>
    blockPartial (fun i => pvPerPath opt (pathOf paths numSims i) numTimesteps)
      numSims gridX blockX bid

/-- The per-block output array of the `computeValueAsian` kernel. -/
def computeValueAsian (paths : ℕ → ℚ) (opt : genericOption)
    (numSims numTimesteps gridX blockX : ℕ) : ℕ → ℚ :=
  fun bid =>
    blockPartial (fun i => asianPerPath opt (pathOf paths numSims i) numTimesteps)
      numSims gridX blockX bid

/-- The per-block output array of the `computeValueLookback` kernel. -/
def computeValueLookback (paths : ℕ → ℚ) (opt : genericOption)
    (numSims numTimesteps gridX blockX : ℕ) : ℕ → ℚ :=
  fun bid =>
    blockPartial (fun i => lookbackPerPath opt (pathOf paths numSims i) numTimesteps)
      numSims gridX blockX bid

/-- The per-block output arrays (`valuesko`, `valueski`) of the
`computeValueKnockoutin` kernel. -/
def computeValueKnockoutin (paths : ℕ → ℚ) (opt : genericOption)
    (numSims numTimesteps gridX blockX : ℕ) : (ℕ → ℚ) × (ℕ → ℚ) :=
  (fun bid =>
      blockPartial (fun i => koPerPath opt (pathOf paths numSims i) numTimesteps)
        numSims gridX blockX bid,
   fun bid =>
      blockPartial (fun i => kiPerPath opt (pathOf paths numSims i) numTimesteps)
        numSims gridX blockX bid)

/-- The arithmetic of `PricingEngine::operator()` on the success path: for
each evaluator, accumulate the per-block partial sums on the host
(`std::accumulate`, a left fold from `0`), divide by `m_numSims`, multiply
by the discount factor (the source's `exp(-option.r * option.tenor)`,
passed in abstractly as `disc`), and store the five result fields. -/
def engineRun (opt : genericOption) (paths : ℕ → ℚ) (numSims gridX blockX : ℕ)
    (disc : ℚ) : genericOption :=
  let T := numTimestepsOf opt
  let vPV := ((List.range gridX).map
      (computeValuePlainVanilla paths opt numSims T gridX blockX)).foldl (· + ·) 0
    / (numSims : ℚ) * disc
  let vAsian := ((List.range gridX).map
      (computeValueAsian paths opt numSims T gridX blockX)).foldl (· + ·) 0
    / (numSims : ℚ) * disc
  let vKO := ((List.range gridX).map
      (computeValueKnockoutin paths opt numSims T gridX blockX).1).foldl (· + ·) 0
    / (numSims : ℚ) * disc
  let vKI := ((List.range gridX).map
      (computeValueKnockoutin paths opt numSims T gridX blockX).2).foldl (· + ·) 0
    / (numSims : ℚ) * disc
  let vLB := ((List.range gridX).map
      (computeValueLookback paths opt numSims T gridX blockX)).foldl (· + ·) 0
    / (numSims : ℚ) * disc
  { opt with
      valuePlainVanilla := vPV
      valueAsian := vAsian
      valueKnockout := vKO
      valueKnockin := vKI
      valueLookback := vLB }

/-! Summation helpers. -/

theorem sum_range_add_shift (F : ℕ → ℚ) (a b : ℕ) :
    ∑ i in Finset.range (a + b), F i =
      (∑ i in Finset.range a, F i) + ∑ i in Finset.range b, F (i + a) := by
  induction b with
  | zero => simp
  | succ b ih =>
    rw [Nat.add_succ, Finset.sum_range_succ, ih, Finset.sum_range_succ,
      Nat.add_comm b a]
    ring

theorem foldl_add_eq_sum (l : List ℚ) : ∀ a : ℚ, l.foldl (· + ·) a = a + l.sum := by
  induction l with
  | nil => simp
  | cons x l ih =>
    intro a
    rw [List.foldl_cons, ih, List.sum_cons]
    ring

theorem list_range_map_sum (F : ℕ → ℚ) (g : ℕ) :
    ((List.range g).map F).sum = ∑ bid in Finset.range g, F bid := by
  induction g with
  | zero => simp
  | succ g ih =>
    rw [List.range_succ, List.map_append, List.sum_append, ih,
      Finset.sum_range_succ]
    simp

theorem sum_block_split (F : ℕ → ℚ) (g B : ℕ) :
    ∑ tid in Finset.range (g * B), F tid =
      ∑ bid in Finset.range g, ∑ l in Finset.range B, F (bid * B + l) := by
  induction g with
  | zero => simp
  | succ g ih =>
    rw [Finset.sum_range_succ, ← ih, Nat.succ_mul, sum_range_add_shift]
    congr 1
    exact Finset.sum_congr rfl (fun l _ => by rw [Nat.add_comm])

/-- Value of the reduction loop started at a power of two: the sum of the
first `2 ^ (m + 1)` slots. -/
theorem reduceLoop_pow (m : ℕ) : ∀ d : ℕ → ℚ,
    reduceLoop d (2 ^ m) 0 = ∑ j in Finset.range (2 ^ (m + 1)), d j := by
  induction m with
  | zero =>
    intro d
    rw [reduceLoop]
    norm_num
    rw [reduceLoop]
    norm_num [reduceHalf, Finset.sum_range_succ]
  | succ m ih =>
    intro d
    rw [reduceLoop]
    have hne : (2 : ℕ) ^ (m + 1) ≠ 0 := by positivity
    rw [dif_neg hne]
    have hdiv : (2 : ℕ) ^ (m + 1) / 2 = 2 ^ m := by
      rw [pow_succ]
      exact Nat.mul_div_cancel _ two_pos
    rw [hdiv, ih]
    have hstep : ∀ j ∈ Finset.range (2 ^ (m + 1)),
        reduceHalf d (2 ^ (m + 1)) j = d j + d (j + 2 ^ (m + 1)) := by
      intro j hj
      simp only [reduceHalf]
      rw [if_pos (Finset.mem_range.mp hj)]
    rw [Finset.sum_congr rfl hstep, Finset.sum_add_distrib]
    have h2 : (2 : ℕ) ^ (m + 1 + 1) = 2 ^ (m + 1) + 2 ^ (m + 1) := by ring
    rw [h2, sum_range_add_shift]

/-- `reduce_sum` on a power-of-two block computes the sum of all slots. -/
theorem reduce_sum_pow (k : ℕ) (d : ℕ → ℚ) :
    reduce_sum (2 ^ k) d = ∑ j in Finset.range (2 ^ k), d j := by
  cases k with
  | zero =>
    show reduceLoop d (1 / 2) 0 = _
    norm_num
    rw [reduceLoop]
    norm_num
  | succ k =>
    show reduceLoop d (2 ^ (k + 1) / 2) 0 = _
    have hdiv : (2 : ℕ) ^ (k + 1) / 2 = 2 ^ k := by
      rw [pow_succ]
      exact Nat.mul_div_cancel _ two_pos
    rw [hdiv, reduceLoop_pow]

/-- Closed form of the grid-stride loop, as a filtered sum over all path
indices, valid when the fuel covers the remaining distance. -/
theorem gridSum_char (f : ℕ → ℚ) (n s : ℕ) (hs : 1 ≤ s) :
    ∀ fuel i, n ≤ i + fuel →
      gridSum f n s fuel i =
        ∑ j in Finset.range n, if i ≤ j ∧ s ∣ (j - i) then f j else 0 := by
  intro fuel
  induction fuel with
  | zero =>
    intro i hi
    rw [gridSum]
    symm
    apply Finset.sum_eq_zero
    intro j hj
    have hj' := Finset.mem_range.mp hj
    rw [if_neg]
    rintro ⟨hij, -⟩
    omega
  | succ fuel ih =>
    intro i hi
    rw [gridSum]
    by_cases hin : i < n
    · rw [if_pos hin, ih (i + s) (by omega)]
      have key : ∀ j, (if i ≤ j ∧ s ∣ (j - i) then f j else 0) =
          (if j = i then f j else 0) +
            (if i + s ≤ j ∧ s ∣ (j - (i + s)) then f j else 0) := by
        intro j
        by_cases hji : j = i
        · subst hji
          rw [if_pos ⟨le_refl j, by simp⟩, if_pos rfl, if_neg (by omega), add_zero]
        · by_cases hcond : i ≤ j ∧ s ∣ (j - i)
          · obtain ⟨hij, q, hq⟩ := hcond
            rcases q with - | q'
            · exfalso
              omega
            · have hq' : j - i = s * q' + s := by rw [hq]; ring
              have hsle : s ≤ j - i := hq' ▸ Nat.le_add_left s (s * q')
              have h1 : i + s ≤ j := by omega
              have h2 : j - (i + s) = s * q' := by
                rw [← Nat.sub_sub, hq', Nat.add_sub_cancel]
              rw [if_pos ⟨hij, ⟨q' + 1, hq⟩⟩, if_neg hji,
                if_pos ⟨h1, h2 ▸ dvd_mul_right s q'⟩, zero_add]
          · rw [if_neg hcond, if_neg hji, if_neg, add_zero]
            rintro ⟨h1, h2⟩
            refine hcond ⟨by omega, ?_⟩
            have h3 : j - i = (j - (i + s)) + s := by omega
            rw [h3]
            exact dvd_add h2 dvd_rfl
      rw [Finset.sum_congr rfl (fun j _ => key j), Finset.sum_add_distrib]
      rw [Finset.sum_ite_eq' (Finset.range n) i f,
        if_pos (Finset.mem_range.mpr hin)]
    · rw [if_neg hin]
      symm
      apply Finset.sum_eq_zero
      intro j hj
      have hj' := Finset.mem_range.mp hj
      rw [if_neg]
      rintro ⟨hij, -⟩
      omega

/-- The grid-stride distribution partitions the path population: summing
the per-thread partial sums over all `stride` threads recovers the plain
sum over all `n` paths. -/
theorem gridSum_partition (f : ℕ → ℚ) (n s : ℕ) (hs : 1 ≤ s) :
    ∑ tid in Finset.range s, gridSum f n s n tid = ∑ i in Finset.range n, f i := by
  have hchar : ∀ tid, gridSum f n s n tid =
      ∑ j in Finset.range n, if tid ≤ j ∧ s ∣ (j - tid) then f j else 0 :=
    fun tid => gridSum_char f n s hs n tid (by omega)
  rw [Finset.sum_congr rfl (fun tid _ => hchar tid), Finset.sum_comm]
  apply Finset.sum_congr rfl
  intro j hj
  have hiff : ∀ tid, tid < s → ((tid ≤ j ∧ s ∣ (j - tid)) ↔ tid = j % s) := by
    intro tid htid
    constructor
    · rintro ⟨hle, q, hq⟩
      have hjq : j = s * q + tid := (Nat.sub_eq_iff_eq_add hle).mp hq
      rw [hjq, Nat.add_comm, Nat.add_mul_mod_self_left, Nat.mod_eq_of_lt htid]
    · rintro rfl
      refine ⟨Nat.mod_le j s, ⟨j / s, ?_⟩⟩
      have h := Nat.div_add_mod j s
      omega
  have hrw : ∀ tid ∈ Finset.range s,
      (if tid ≤ j ∧ s ∣ (j - tid) then f j else 0) =
        (if tid = j % s then f j else 0) := by
    intro tid htid
    exact if_congr (hiff tid (Finset.mem_range.mp htid)) rfl rfl
  rw [Finset.sum_congr rfl hrw,
    Finset.sum_ite_eq' (Finset.range s) (j % s) (fun _ => f j),
    if_pos (Finset.mem_range.mpr (Nat.mod_lt j hs))]

/-- Host finishing applied to the per-block partial sums of a
power-of-two block equals the discounted Monte Carlo mean of the per-path
payoffs. -/
theorem hostFold_mean (f : ℕ → ℚ) (numSims gridX k : ℕ) (disc : ℚ)
    (hg : 1 ≤ gridX) :
    ((List.range gridX).map
        (fun bid => blockPartial f numSims gridX (2 ^ k) bid)).foldl (· + ·) 0
      / (numSims : ℚ) * disc
      = (∑ i in Finset.range numSims, f i) / (numSims : ℚ) * disc := by
  rw [foldl_add_eq_sum, zero_add, list_range_map_sum]
  have hB : ∀ bid, blockPartial f numSims gridX (2 ^ k) bid =
      ∑ l in Finset.range (2 ^ k),
        gridSum f numSims (gridX * 2 ^ k) numSims (bid * 2 ^ k + l) :=
    fun bid => reduce_sum_pow k _
  have hs : 1 ≤ gridX * 2 ^ k := Nat.mul_pos hg (Nat.pos_pow_of_pos k two_pos)
  rw [Finset.sum_congr rfl (fun bid _ => hB bid), ← sum_block_split,
    gridSum_partition f numSims (gridX * 2 ^ k) hs]

/-- Claim C9 (confirmed): for every power-of-two group size, the
binary-tree reduction leaves in slot `0` the sum of all the group's inputs,
equal to the sequential left fold of the inputs, independently of the group
size used. -/
theorem c9_reduce_sum_fold (k : ℕ) (d : ℕ → ℚ) :
    reduce_sum (2 ^ k) d = ((List.range (2 ^ k)).map d).foldl (· + ·) 0 := by
  rw [reduce_sum_pow, foldl_add_eq_sum, zero_add, list_range_map_sum]

/-- Claim C8 (confirmed): for every evaluator, the host finishing step
stores exactly the sum of all per-group partial sums, divided by
`numSims` and multiplied by the discount factor `disc` (the source's
`exp(-r * tenor)`); no other transformation intervenes. -/
theorem c8_host_finishing (opt : genericOption) (paths : ℕ → ℚ)
    (numSims gridX blockX : ℕ) (disc : ℚ) :
    (engineRun opt paths numSims gridX blockX disc).valuePlainVanilla =
      ((List.range gridX).map
        (computeValuePlainVanilla paths opt numSims (numTimestepsOf opt) gridX blockX)).sum
        / (numSims : ℚ) * disc ∧
    (engineRun opt paths numSims gridX blockX disc).valueAsian =
      ((List.range gridX).map
        (computeValueAsian paths opt numSims (numTimestepsOf opt) gridX blockX)).sum
        / (numSims : ℚ) * disc ∧
    (engineRun opt paths numSims gridX blockX disc).valueKnockout =
      ((List.range gridX).map
        (computeValueKnockoutin paths opt numSims (numTimestepsOf opt) gridX blockX).1).sum
        / (numSims : ℚ) * disc ∧
    (engineRun opt paths numSims gridX blockX disc).valueKnockin =
      ((List.range gridX).map
        (computeValueKnockoutin paths opt numSims (numTimestepsOf opt) gridX blockX).2).sum
        / (numSims : ℚ) * disc ∧
    (engineRun opt paths numSims gridX blockX disc).valueLookback =
      ((List.range gridX).map
        (computeValueLookback paths opt numSims (numTimestepsOf opt) gridX blockX)).sum
        / (numSims : ℚ) * disc := by
  refine ⟨?_, ?_, ?_, ?_, ?_⟩ <;>
    simp only [engineRun, foldl_add_eq_sum, zero_add]

/-! Per-path facts about the knockout/knockin pair. -/

theorem koScan_snd_cases (spot barrier : ℚ) (p : ℕ → ℚ) (T : ℕ) :
    (koScan spot barrier p T).2 = 0 ∨ (koScan spot barrier p T).2 = 1 := by
  rw [koScan_snd]
  by_cases h : ∃ t, t < T ∧ p t * spot > barrier
  · left
    rw [if_pos h]
  · right
    rw [if_neg h]

/-- For a Call with nonnegative strike,knockout and knockin per-path
payoffs sum to the PlainVanilla per-path payoff. -/
theorem ko_ki_perPath_partition (opt : genericOption) (p : ℕ → ℚ) (T : ℕ)
    (hc : opt.type = CallPut.Call) (hK : 0 ≤ opt.strike) :
    koPerPath opt p T + kiPerPath opt p T = pvPerPath opt p T := by
  have hne : ¬ (opt.type = CallPut.Put) := by
    rw [hc]
    exact fun h => by cases h
  rcases koScan_snd_cases opt.spot opt.barrier p T with h | h
  · simp only [koPerPath, kiPerPath, pvPerPath, koScan_fst, h, mul_zero,
      zero_sub, sub_zero, mul_one, if_neg hne]
    rw [max_eq_left (neg_nonpos.mpr hK), zero_add]
  · simp only [koPerPath, kiPerPath, pvPerPath, koScan_fst, h, mul_one,
      sub_self, mul_zero, zero_sub, if_neg hne]
    rw [max_eq_left (neg_nonpos.mpr hK), add_zero]

/-- When no stored entry of the path breaches the barrier, the knockout
per-path payoff coincides with the PlainVanilla one (any option type). -/
theorem koPerPath_of_no_breach (opt : genericOption) (p : ℕ → ℚ) (T : ℕ)
    (hnb : ∀ t, t < T → ¬ (p t * opt.spot > opt.barrier)) :
    koPerPath opt p T = pvPerPath opt p T := by
  have hk : (koScan opt.spot opt.barrier p T).2 = 1 := by
    rw [koScan_snd, if_neg]
    rintro ⟨t, ht, hgt⟩
    exact hnb t ht hgt
  simp only [koPerPath, pvPerPath, koScan_fst, hk, mul_one]

/-- When no stored entry of the path breaches the barrier, the knockin
per-path payoff of a Call with nonnegative strike is zero. -/
theorem kiPerPath_of_no_breach (opt : genericOption) (p : ℕ → ℚ) (T : ℕ)
    (hc : opt.type = CallPut.Call) (hK : 0 ≤ opt.strike)
    (hnb : ∀ t, t < T → ¬ (p t * opt.spot > opt.barrier)) :
    kiPerPath opt p T = 0 := by
  have hk : (koScan opt.spot opt.barrier p T).2 = 1 := by
    rw [koScan_snd, if_neg]
    rintro ⟨t, ht, hgt⟩
    exact hnb t ht hgt
  have hne : ¬ (opt.type = CallPut.Put) := by
    rw [hc]
    exact fun h => by cases h
  simp only [kiPerPath, hk, sub_self, mul_zero, zero_sub, if_neg hne]
  exact max_eq_left (neg_nonpos.mpr hK)

/-- Claim C2, counterexample: for the Put option `putOpt`
(`spot = 1`, `strike = 5`, `barrier = 1`, one time step) and the breaching
path matrix with constant entry `2`, the knockout value is `5` and the
knockin value is `3`, so `valueKnockout + valueKnockin = 8`, while the
PlainVanilla value of the same path matrix is `3`. -/
theorem c2_put_partition_counterexample :
    (engineRun putOpt (fun _ : ℕ => (2 : ℚ)) 1 1 1 1).valueKnockout +
      (engineRun putOpt (fun _ : ℕ => (2 : ℚ)) 1 1 1 1).valueKnockin = 8 ∧
    (engineRun putOpt (fun _ : ℕ => (2 : ℚ)) 1 1 1 1).valuePlainVanilla = 3 ∧
    (8 : ℚ) ≠ 3 := by
  have hT : numTimestepsOf putOpt = 1 := by norm_num [numTimestepsOf, putOpt]
  have vKO : (engineRun putOpt (fun _ : ℕ => (2 : ℚ)) 1 1 1 1).valueKnockout = 5 := by
    have h := hostFold_mean
      (fun i => koPerPath putOpt (pathOf (fun _ : ℕ => (2 : ℚ)) 1 i) (numTimestepsOf putOpt))
      1 1 0 1 (le_refl 1)
    refine h.trans ?_
    rw [hT]
    norm_num [Finset.sum_range_one, pathOf, koPerPath, koScan, finvalLoop,
      putOpt, max_def]
  have vKI : (engineRun putOpt (fun _ : ℕ => (2 : ℚ)) 1 1 1 1).valueKnockin = 3 := by
    have h := hostFold_mean
      (fun i => kiPerPath putOpt (pathOf (fun _ : ℕ => (2 : ℚ)) 1 i) (numTimestepsOf putOpt))
      1 1 0 1 (le_refl 1)
    refine h.trans ?_
    rw [hT]
    norm_num [Finset.sum_range_one, pathOf, kiPerPath, koScan, finvalLoop,
      putOpt, max_def]
  have vPV : (engineRun putOpt (fun _ : ℕ => (2 : ℚ)) 1 1 1 1).valuePlainVanilla = 3 := by
    have h := hostFold_mean
      (fun i => pvPerPath putOpt (pathOf (fun _ : ℕ => (2 : ℚ)) 1 i) (numTimestepsOf putOpt))
      1 1 0 1 (le_refl 1)
    refine h.trans ?_
    rw [hT]
    norm_num [Finset.sum_range_one, pathOf, pvPerPath, finvalLoop, putOpt, max_def]
  rw [vKO, vKI, vPV]
  norm_num

/-- Claim C2 (amended): restricted to Call options with nonnegative strike
(a knocked-out/never-knocked-in Put path contributes `strike`, not `0`),
knockout and knockin partition the paths: over the same path matrix,
`valueKnockout + valueKnockin = valuePlainVanilla`, and when no stored
entry of any path breaches the barrier, `valueKnockout = valuePlainVanilla`
and `valueKnockin = 0`, for all path counts. -/
theorem c2_partition_amended (opt : genericOption) (paths : ℕ → ℚ)
    (numSims gridX k : ℕ) (disc : ℚ)
    (hc : opt.type = CallPut.Call) (hK : 0 ≤ opt.strike) (hg : 1 ≤ gridX) :
    ((engineRun opt paths numSims gridX (2 ^ k) disc).valueKnockout +
      (engineRun opt paths numSims gridX (2 ^ k) disc).valueKnockin =
      (engineRun opt paths numSims gridX (2 ^ k) disc).valuePlainVanilla) ∧
    ((∀ i, i < numSims → ∀ t, t < numTimestepsOf opt →
        ¬ (paths (t * numSims + i) * opt.spot > opt.barrier)) →
      (engineRun opt paths numSims gridX (2 ^ k) disc).valueKnockout =
        (engineRun opt paths numSims gridX (2 ^ k) disc).valuePlainVanilla ∧
      (engineRun opt paths numSims gridX (2 ^ k) disc).valueKnockin = 0) := by
  have hKO : (engineRun opt paths numSims gridX (2 ^ k) disc).valueKnockout =
      (∑ i in Finset.range numSims,
        koPerPath opt (pathOf paths numSims i) (numTimestepsOf opt))
        / (numSims : ℚ) * disc :=
    hostFold_mean _ numSims gridX k disc hg
  have hKI : (engineRun opt paths numSims gridX (2 ^ k) disc).valueKnockin =
      (∑ i in Finset.range numSims,
        kiPerPath opt (pathOf paths numSims i) (numTimestepsOf opt))
        / (numSims : ℚ) * disc :=
    hostFold_mean _ numSims gridX k disc hg
  have hPV : (engineRun opt paths numSims gridX (2 ^ k) disc).valuePlainVanilla =
      (∑ i in Finset.range numSims,
        pvPerPath opt (pathOf paths numSims i) (numTimestepsOf opt))
        / (numSims : ℚ) * disc :=
    hostFold_mean _ numSims gridX k disc hg
  constructor
  · rw [hKO, hKI, hPV, ← add_mul, div_add_div_same, ← Finset.sum_add_distrib,
      Finset.sum_congr rfl (fun i _ =>
        ko_ki_perPath_partition opt (pathOf paths numSims i) (numTimestepsOf opt) hc hK)]
  · intro hnb
    constructor
    · rw [hKO, hPV,
        Finset.sum_congr rfl (fun i hi =>
          koPerPath_of_no_breach opt (pathOf paths numSims i) (numTimestepsOf opt)
            (fun t ht => hnb i (Finset.mem_range.mp hi) t ht))]
    · rw [hKI,
        Finset.sum_congr rfl (fun i hi =>
          kiPerPath_of_no_breach opt (pathOf paths numSims i) (numTimestepsOf opt)
            hc hK (fun t ht => hnb i (Finset.mem_range.mp hi) t ht))]
      simp

/-- Witness for C2 at `callOpt`, one path constantly `1` (never breaching
the barrier `45`), one block of one thread. -/
theorem c2_partition_witness :
    callOpt.type = CallPut.Call ∧ (0 : ℚ) ≤ callOpt.strike ∧ (1 : ℕ) ≤ 1 ∧
    ((engineRun callOpt (fun _ : ℕ => (1 : ℚ)) 1 1 (2 ^ 0) 1).valueKnockout +
      (engineRun callOpt (fun _ : ℕ => (1 : ℚ)) 1 1 (2 ^ 0) 1).valueKnockin =
      (engineRun callOpt (fun _ : ℕ => (1 : ℚ)) 1 1 (2 ^ 0) 1).valuePlainVanilla) ∧
    ((engineRun callOpt (fun _ : ℕ => (1 : ℚ)) 1 1 (2 ^ 0) 1).valueKnockout =
      (engineRun callOpt (fun _ : ℕ => (1 : ℚ)) 1 1 (2 ^ 0) 1).valuePlainVanilla ∧
      (engineRun callOpt (fun _ : ℕ => (1 : ℚ)) 1 1 (2 ^ 0) 1).valueKnockin = 0) :=
  ⟨rfl, by norm_num [callOpt], le_refl 1,
    (c2_partition_amended callOpt (fun _ : ℕ => (1 : ℚ)) 1 1 0 1 rfl
      (by norm_num [callOpt]) (le_refl 1)).1,
    (c2_partition_amended callOpt (fun _ : ℕ => (1 : ℚ)) 1 1 0 1 rfl
      (by norm_num [callOpt]) (le_refl 1)).2
      (fun i _ t _ => by norm_num [callOpt])⟩

/-! The serial reference pricer `PricingEngine::operator[]`.  Its
`box_muller` generator draws from `rand()`; we model its outputs — the
successive standard-normal variates `rn` — abstractly as a stream
`normals : ℕ → ℚ`, consumed in call order (path `p` consumes draws
`p * numtimeSteps + pos`). -/

/-- The running price `St` of `operator[]`: `St = S;` then
`St *= exp(MuBydT + VBySqrtdT * rn)` once per time step. -/
def cpuSt (expQ : ℚ → ℚ) (MuBydT VBySqrtdT : ℚ) (normals : ℕ → ℚ) (S : ℚ)
    (base : ℕ) : ℕ → ℚ
  | 0 => S
  | n + 1 =>
    cpuSt expQ MuBydT VBySqrtdT normals S base n *
      expQ (MuBydT + VBySqrtdT * normals (base + n))

/-- The `sumVanilla` accumulator of `operator[]`:
`valOp = (St > X) ? St - X : 0; sumVanilla += valOp` over all paths
(note: no sign flip for Put options in the source). -/
def serialSum (expQ : ℚ → ℚ) (MuBydT VBySqrtdT : ℚ) (normals : ℕ → ℚ)
    (S X : ℚ) (T : ℕ) : ℕ → ℚ
  | 0 => 0
  | p + 1 =>
    serialSum expQ MuBydT VBySqrtdT normals S X T p +
      (if cpuSt expQ MuBydT VBySqrtdT normals S (p * T) T > X then
        cpuSt expQ MuBydT VBySqrtdT normals S (p * T) T - X else 0)

/-- `PricingEngine::operator[]`: the single-threaded reference pricer,
storing `exp(-R*T) * sumVanilla / N` into `valuePlainVanillaCPU`. -/
def engineRunCPU (expQ sqrtQ : ℚ → ℚ) (normals : ℕ → ℚ) (opt : genericOption)
    (numSims : ℕ) (disc : ℚ) : genericOption :=
  let T := numTimestepsOf opt
  let MuBydT := (opt.r - (1/2) * opt.sigma * opt.sigma) * opt.dt
  let VBySqrtdT := opt.sigma * sqrtQ opt.dt
  { opt with
      valuePlainVanillaCPU :=
        disc * serialSum expQ MuBydT VBySqrtdT normals opt.spot opt.strike T numSims
          / (numSims : ℚ) }

theorem cpuSt_closed (expQ : ℚ → ℚ) (Mu V : ℚ) (normals : ℕ → ℚ) (S : ℚ)
    (base : ℕ) : ∀ n, cpuSt expQ Mu V normals S base n =
      S * ∏ v in Finset.range n, expQ (Mu + V * normals (base + v)) := by
  intro n
  induction n with
  | zero => simp [cpuSt]
  | succ n ih => rw [cpuSt, ih, Finset.prod_range_succ, mul_assoc]

theorem serialSum_closed (expQ : ℚ → ℚ) (Mu V : ℚ) (normals : ℕ → ℚ)
    (S X : ℚ) (T : ℕ) : ∀ N, serialSum expQ Mu V normals S X T N =
      ∑ p in Finset.range N,
        (if cpuSt expQ Mu V normals S (p * T) T > X then
          cpuSt expQ Mu V normals S (p * T) T - X else 0) := by
  intro N
  induction N with
  | zero => simp [serialSum]
  | succ N ih => rw [serialSum, ih, Finset.sum_range_succ]

/-- Claim C3, counterexample: for the Put option `putOpt` with one path and
one time step, a unit multiplicative shock (`expQ` constantly `1`, so the
final value is `spot = 1`), the serial pricer returns `0` — it applies the
Call payoff `(St > X) ? St - X : 0` — while the PlainVanilla payoff with
the sign flipped for Put on the same final value is `max(0, 5 - 1) = 4`. -/
theorem c3_put_serial_counterexample :
    (engineRunCPU (fun _ => 1) (fun _ => 1) (fun _ => 0) putOpt 1 1).valuePlainVanillaCPU
      = 0 ∧
    pvPerPath putOpt (fun _ : ℕ => (1 : ℚ)) 1 = 4 ∧ (0 : ℚ) ≠ 4 := by
  have hT : numTimestepsOf putOpt = 1 := by norm_num [numTimestepsOf, putOpt]
  refine ⟨?_, ?_, by norm_num⟩
  · simp only [engineRunCPU, hT]
    norm_num [serialSum, cpuSt, putOpt]
  · norm_num [pvPerPath, finvalLoop, putOpt, max_def]

/-- Claim C3 (amended): the serial reference pricer uses the same
drift/diffusion recurrence as the parallel path simulator and the same
mean-and-discount finishing, but it always applies the Call payoff
`max(0, finalValue - strike)` — the sign is never flipped for Put.  For a
Call option it therefore equals the discounted mean of the parallel
PlainVanilla per-path payoff evaluated on the paths built from the same
normal draws. -/
theorem c3_serial_refines_vanilla_amended (expQ sqrtQ : ℚ → ℚ)
    (normals : ℕ → ℚ) (opt : genericOption) (numSims : ℕ) (disc : ℚ)
    (hT : 1 ≤ numTimestepsOf opt) (hc : opt.type = CallPut.Call) :
    (engineRunCPU expQ sqrtQ normals opt numSims disc).valuePlainVanillaCPU =
      disc * (∑ p in Finset.range numSims,
        pvPerPath opt
          (fun t => ∏ v in Finset.range (t + 1),
            expQ ((opt.r - (1/2) * opt.sigma * opt.sigma) * opt.dt +
              opt.sigma * sqrtQ opt.dt * normals (p * numTimestepsOf opt + v)))
          (numTimestepsOf opt)) / (numSims : ℚ) := by
  have hne : ¬ (opt.type = CallPut.Put) := by
    rw [hc]
    exact fun h => by cases h
  have hser : (engineRunCPU expQ sqrtQ normals opt numSims disc).valuePlainVanillaCPU =
      disc * serialSum expQ ((opt.r - (1/2) * opt.sigma * opt.sigma) * opt.dt)
        (opt.sigma * sqrtQ opt.dt) normals opt.spot opt.strike
        (numTimestepsOf opt) numSims / (numSims : ℚ) := rfl
  rw [hser, serialSum_closed]
  have hpt : ∀ p : ℕ,
      (if cpuSt expQ ((opt.r - (1/2) * opt.sigma * opt.sigma) * opt.dt)
          (opt.sigma * sqrtQ opt.dt) normals opt.spot
          (p * numTimestepsOf opt) (numTimestepsOf opt) > opt.strike then
        cpuSt expQ ((opt.r - (1/2) * opt.sigma * opt.sigma) * opt.dt)
          (opt.sigma * sqrtQ opt.dt) normals opt.spot
          (p * numTimestepsOf opt) (numTimestepsOf opt) - opt.strike else 0) =
      pvPerPath opt
        (fun t => ∏ v in Finset.range (t + 1),
          expQ ((opt.r - (1/2) * opt.sigma * opt.sigma) * opt.dt +
            opt.sigma * sqrtQ opt.dt * normals (p * numTimestepsOf opt + v)))
        (numTimestepsOf opt) := by
    intro p
    have hfin : finvalLoop
        (fun t => ∏ v in Finset.range (t + 1),
          expQ ((opt.r - (1/2) * opt.sigma * opt.sigma) * opt.dt +
            opt.sigma * sqrtQ opt.dt * normals (p * numTimestepsOf opt + v)))
        (numTimestepsOf opt) =
        ∏ v in Finset.range (numTimestepsOf opt),
          expQ ((opt.r - (1/2) * opt.sigma * opt.sigma) * opt.dt +
            opt.sigma * sqrtQ opt.dt * normals (p * numTimestepsOf opt + v)) := by
      rw [finvalLoop_of_pos _ _ hT, Nat.sub_add_cancel hT]
    simp only [pvPerPath, hfin, if_neg hne]
    rw [cpuSt_closed, mul_comm opt.spot]
    by_cases hgt :
        (∏ v in Finset.range (numTimestepsOf opt),
          expQ ((opt.r - (1/2) * opt.sigma * opt.sigma) * opt.dt +
            opt.sigma * sqrtQ opt.dt * normals (p * numTimestepsOf opt + v))) *
          opt.spot > opt.strike
    · rw [if_pos hgt, max_eq_right (by linarith)]
    · rw [if_neg hgt, max_eq_left (by push_neg at hgt; linarith)]
  rw [Finset.sum_congr rfl (fun p _ => hpt p)]

/-- Witness for C3 at `callOpt`, one path, one time step, unit shocks. -/
theorem c3_serial_refines_vanilla_witness :
    1 ≤ numTimestepsOf callOpt ∧ callOpt.type = CallPut.Call ∧
    (engineRunCPU (fun _ => 1) (fun _ => 1) (fun _ => 0) callOpt 1 1).valuePlainVanillaCPU =
      1 * (∑ p in Finset.range 1,
        pvPerPath callOpt
          (fun t => ∏ v in Finset.range (t + 1),
            (fun _ : ℚ => (1 : ℚ)) ((callOpt.r - (1/2) * callOpt.sigma * callOpt.sigma) * callOpt.dt +
              callOpt.sigma * (fun _ : ℚ => (1 : ℚ)) callOpt.dt *
                (fun _ : ℕ => (0 : ℚ)) (p * numTimestepsOf callOpt + v)))
          (numTimestepsOf callOpt)) / ((1 : ℕ) : ℚ) :=
  ⟨by norm_num [numTimestepsOf, callOpt], rfl,
    c3_serial_refines_vanilla_amended (fun _ => 1) (fun _ => 1) (fun _ => 0)
      callOpt 1 1 (by norm_num [numTimestepsOf, callOpt]) rfl⟩

/-- Claim C10 (confirmed): a run of the parallel pricing pass writes only
the five parallel valuation fields — the contract parameters, `golden`,
`valuePlainVanillaCPU` and `valueALK` are unchanged — and the serial pass
leaves `valueALK` unchanged as well: no pricing component ever assigns
`valueALK`. -/
theorem c10_frame (opt : genericOption) (paths : ℕ → ℚ)
    (numSims gridX blockX : ℕ) (disc : ℚ) (expQ sqrtQ : ℚ → ℚ)
    (normals : ℕ → ℚ) (numSims2 : ℕ) (disc2 : ℚ) :
    (engineRun opt paths numSims gridX blockX disc).spot = opt.spot ∧
    (engineRun opt paths numSims gridX blockX disc).strike = opt.strike ∧
    (engineRun opt paths numSims gridX blockX disc).r = opt.r ∧
    (engineRun opt paths numSims gridX blockX disc).sigma = opt.sigma ∧
    (engineRun opt paths numSims gridX blockX disc).tenor = opt.tenor ∧
    (engineRun opt paths numSims gridX blockX disc).dt = opt.dt ∧
    (engineRun opt paths numSims gridX blockX disc).barrier = opt.barrier ∧
    (engineRun opt paths numSims gridX blockX disc).type = opt.type ∧
    (engineRun opt paths numSims gridX blockX disc).golden = opt.golden ∧
    (engineRun opt paths numSims gridX blockX disc).valuePlainVanillaCPU =
      opt.valuePlainVanillaCPU ∧
    (engineRun opt paths numSims gridX blockX disc).valueALK = opt.valueALK ∧
    (engineRunCPU expQ sqrtQ normals opt numSims2 disc2).valueALK = opt.valueALK :=
  ⟨rfl, rfl, rfl, rfl, rfl, rfl, rfl, rfl, rfl, rfl, rfl, rfl⟩

/-! The `generatePaths` kernel.  `getPathStep(drift, diffusion, state)` is
`exp(drift + diffusion * curand_normal(&state))`; the per-lane stream of
`curand_normal` outputs is modelled as `z : ℕ → ℚ` consumed in draw order,
and `exp` as the abstract `expQ`.  Device memory is a total function
`ℕ → ℚ` updated pointwise. -/

/-- `getPathStep`: one multiplicative shock. -/
def pathStep (expQ : ℚ → ℚ) (drift diffusion z : ℚ) : ℚ :=
  expQ (drift + diffusion * z)

/-- The inner time-step loop of `generatePaths` for one path `i`:
`s *= getPathStep(...); *output = s; output += numSims`, starting at write
row `t`, with `nrem` steps remaining, draw counter `c` and running value
`s`.  Returns the updated memory and draw counter. -/
def simWrite (expQ : ℚ → ℚ) (drift diffusion : ℚ) (z : ℕ → ℚ)
    (numSims i : ℕ) : ℕ → ℕ → ℕ → ℚ → (ℕ → ℚ) → (ℕ → ℚ) × ℕ
  | _, 0, c, _, mem => (mem, c)
  | t, nrem + 1, c, s, mem =>
    simWrite expQ drift diffusion z numSims i (t + 1) nrem (c + 1)
      (s * pathStep expQ drift diffusion (z c))
      (Function.update mem (t * numSims + i)
        (s * pathStep expQ drift diffusion (z c)))

/-- The grid-stride path loop of `generatePaths` for one lane:
`for (i = tid; i < numSims; i += step)`, fuelled recursion. -/
def laneRun (expQ : ℚ → ℚ) (drift diffusion : ℚ) (z : ℕ → ℚ)
    (numSims numTimesteps stride : ℕ) : ℕ → ℕ → ℕ → (ℕ → ℚ) → (ℕ → ℚ)
  | 0, _, _, mem => mem
  | fuel + 1, i, c, mem =>
    if i < numSims then
      laneRun expQ drift diffusion z numSims numTimesteps stride fuel (i + stride)
        (simWrite expQ drift diffusion z numSims i 0 numTimesteps c 1 mem).2
        (simWrite expQ drift diffusion z numSims i 0 numTimesteps c 1 mem).1
    else mem

/-- The `generatePaths` kernel: every lane `tid < stride`
(`stride = gridDim.x * blockDim.x`) runs the grid-stride path loop with
`drift = (r - 0.5 * sigma^2) * dt` and `diffusion = sigma * sqrt(dt)`;
the lanes write disjoint cells, so they are composed sequentially. -/
def generatePaths (expQ sqrtQ : ℚ → ℚ) (opt : genericOption)
    (zOf : ℕ → ℕ → ℚ) (numSims numTimesteps stride : ℕ) (mem0 : ℕ → ℚ) :
    ℕ → ℚ :=
  (List.range stride).foldl
    (fun mem tid =>
      laneRun expQ ((opt.r - (1/2) * opt.sigma * opt.sigma) * opt.dt)
        (opt.sigma * sqrtQ opt.dt) (zOf tid) numSims numTimesteps stride
        numSims tid 0 mem)
    mem0

/-! Cell arithmetic of the column-major layout. -/

theorem cell_ne_of_time_ne (N a b i : ℕ) (hN : 1 ≤ N) (hab : a ≠ b) :
    a * N + i ≠ b * N + i := by
  intro he
  exact hab (Nat.eq_of_mul_eq_mul_right hN (by omega))

theorem cell_ne_of_index_ne (N a b i j : ℕ) (hi : i < N) (hj : j < N)
    (hij : i ≠ j) : a * N + i ≠ b * N + j := by
  intro he
  apply hij
  have h1 : (a * N + i) % N = i := by
    rw [Nat.mul_comm, Nat.mul_add_mod, Nat.mod_eq_of_lt hi]
  have h2 : (b * N + j) % N = j := by
    rw [Nat.mul_comm, Nat.mul_add_mod, Nat.mod_eq_of_lt hj]
  rw [← h1, ← h2, he]

/-! Behaviour of the inner time-step loop. -/

theorem simWrite_counter (expQ : ℚ → ℚ) (drift diffusion : ℚ) (z : ℕ → ℚ)
    (numSims i : ℕ) : ∀ nrem t c s mem,
    (simWrite expQ drift diffusion z numSims i t nrem c s mem).2 = c + nrem := by
  intro nrem
  induction nrem with
  | zero => intro t c s mem; rfl
  | succ nrem ih =>
    intro t c s mem
    rw [simWrite, ih]
    omega

theorem simWrite_untouched (expQ : ℚ → ℚ) (drift diffusion : ℚ) (z : ℕ → ℚ)
    (numSims i : ℕ) : ∀ nrem t c s mem loc,
    (∀ u, t ≤ u → u < t + nrem → loc ≠ u * numSims + i) →
    (simWrite expQ drift diffusion z numSims i t nrem c s mem).1 loc = mem loc := by
  intro nrem
  induction nrem with
  | zero => intro t c s mem loc _; rfl
  | succ nrem ih =>
    intro t c s mem loc hloc
    rw [simWrite, ih _ _ _ _ _ (fun u hu1 hu2 => hloc u (by omega) (by omega))]
    exact Function.update_noteq (hloc t (le_refl t) (by omega)) _ mem

theorem prod_range_shift (F : ℕ → ℚ) (a b : ℕ) :
    ∏ v in Finset.range (a + b), F v =
      (∏ v in Finset.range a, F v) * ∏ v in Finset.range b, F (v + a) := by
  induction b with
  | zero => simp
  | succ b ih =>
    rw [Nat.add_succ, Finset.prod_range_succ, ih, Finset.prod_range_succ,
      Nat.add_comm b a]
    ring

theorem simWrite_read (expQ : ℚ → ℚ) (drift diffusion : ℚ) (z : ℕ → ℚ)
    (numSims i : ℕ) (hN : 1 ≤ numSims) : ∀ nrem t c s mem u, t ≤ u →
    u < t + nrem →
    (simWrite expQ drift diffusion z numSims i t nrem c s mem).1
        (u * numSims + i) =
      s * ∏ v in Finset.range (u - t + 1),
        pathStep expQ drift diffusion (z (c + v)) := by
  intro nrem
  induction nrem with
  | zero => intro t c s mem u h1 h2; omega
  | succ nrem ih =>
    intro t c s mem u h1 h2
    rw [simWrite]
    by_cases hut : u = t
    · subst hut
      have hunt : (simWrite expQ drift diffusion z numSims i (u + 1) nrem (c + 1)
          (s * pathStep expQ drift diffusion (z c))
          (Function.update mem (u * numSims + i)
            (s * pathStep expQ drift diffusion (z c)))).1 (u * numSims + i) =
          Function.update mem (u * numSims + i)
            (s * pathStep expQ drift diffusion (z c)) (u * numSims + i) := by
        apply simWrite_untouched
        intro w hw1 hw2
        exact cell_ne_of_time_ne numSims u w i hN (by omega)
      rw [hunt, Function.update_same]
      have h0 : u - u + 1 = 1 := by omega
      rw [h0, Finset.prod_range_one, Nat.add_zero]
    · have hut' : t + 1 ≤ u := by omega
      rw [ih (t + 1) (c + 1) _ _ u hut' (by omega)]
      have hsub : u - (t + 1) + 1 = u - t := by omega
      rw [hsub]
      have key : ∏ v in Finset.range (u - t + 1),
          pathStep expQ drift diffusion (z (c + v)) =
          pathStep expQ drift diffusion (z c) *
            ∏ v in Finset.range (u - t),
              pathStep expQ drift diffusion (z (c + (v + 1))) := by
        rw [show u - t + 1 = 1 + (u - t) from by omega,
          prod_range_shift (fun v => pathStep expQ drift diffusion (z (c + v))) 1 (u - t)]
        simp only [Finset.prod_range_one, Nat.add_zero]
      rw [key]
      have hcg : (∏ v in Finset.range (u - t),
          pathStep expQ drift diffusion (z (c + (v + 1)))) =
          ∏ v in Finset.range (u - t),
            pathStep expQ drift diffusion (z (c + 1 + v)) :=
        Finset.prod_congr rfl (fun v _ => by
          rw [show c + (v + 1) = c + 1 + v from by omega])
      rw [hcg, mul_assoc]

/-- Reading a cell after one lane's grid-stride loop: cell `(t, i)` holds
the cumulative product of this path's shocks when the lane owns path `i`
and the fuel reaches it, and is untouched otherwise. -/
theorem laneRun_read (expQ : ℚ → ℚ) (drift diffusion : ℚ) (z : ℕ → ℚ)
    (numSims numTimesteps stride : ℕ) (hs : 1 ≤ stride) (hN : 1 ≤ numSims) :
    ∀ fuel i0 c0 mem t i, t < numTimesteps → i < numSims →
      laneRun expQ drift diffusion z numSims numTimesteps stride fuel i0 c0 mem
          (t * numSims + i) =
        if i0 ≤ i ∧ stride ∣ (i - i0) ∧ (i - i0) / stride < fuel then
          ∏ v in Finset.range (t + 1),
            pathStep expQ drift diffusion
              (z (c0 + ((i - i0) / stride) * numTimesteps + v))
        else mem (t * numSims + i) := by
  intro fuel
  induction fuel with
  | zero =>
    intro i0 c0 mem t i ht hi
    rw [laneRun, if_neg]
    rintro ⟨-, -, h3⟩
    exact Nat.not_lt_zero _ h3
  | succ fuel ih =>
    intro i0 c0 mem t i ht hi
    rw [laneRun]
    by_cases hi0 : i0 < numSims
    · rw [if_pos hi0, simWrite_counter,
        ih (i0 + stride) (c0 + numTimesteps) _ t i ht hi]
      by_cases hii0 : i = i0
      · subst hii0
        have hC1 : ¬ (i + stride ≤ i ∧ stride ∣ (i - (i + stride)) ∧
            (i - (i + stride)) / stride < fuel) := by
          rintro ⟨hle, -, -⟩
          omega
        rw [if_neg hC1]
        have hC0 : i ≤ i ∧ stride ∣ (i - i) ∧ (i - i) / stride < fuel + 1 := by
          refine ⟨le_refl i, by simp, by simp⟩
        rw [if_pos hC0,
          simWrite_read expQ drift diffusion z numSims i hN numTimesteps 0 c0 1
            mem t (Nat.zero_le t) (by omega)]
        simp only [Nat.sub_zero, one_mul, Nat.sub_self, Nat.zero_div,
          Nat.zero_mul, Nat.add_zero]
      · by_cases hcond : i0 ≤ i ∧ stride ∣ (i - i0) ∧ (i - i0) / stride < fuel + 1
        · obtain ⟨hle, ⟨q, hq⟩, hdiv⟩ := hcond
          rcases q with - | q'
          · exfalso
            omega
          · have hq' : i - i0 = stride * q' + stride := by rw [hq]; ring
            have hsle : stride ≤ i - i0 := hq' ▸ Nat.le_add_left stride (stride * q')
            have h1 : i0 + stride ≤ i := by omega
            have h2 : i - (i0 + stride) = stride * q' := by
              rw [← Nat.sub_sub, hq', Nat.add_sub_cancel]
            have hk1 : (i - i0) / stride = q' + 1 := by
              rw [hq, Nat.mul_div_cancel_left _ hs]
            have hk2 : (i - (i0 + stride)) / stride = q' := by
              rw [h2, Nat.mul_div_cancel_left _ hs]
            rw [if_pos ⟨h1, h2 ▸ dvd_mul_right stride q', by rw [hk2]; omega⟩,
              if_pos ⟨hle, ⟨q' + 1, hq'.trans (by ring)⟩, by rw [hk1]; omega⟩]
            apply Finset.prod_congr rfl
            intro v _
            have harg : c0 + numTimesteps +
                (i - (i0 + stride)) / stride * numTimesteps + v =
                c0 + (i - i0) / stride * numTimesteps + v := by
              rw [hk1, hk2]
              ring
            rw [harg]
        · have hC2 : ¬ (i0 + stride ≤ i ∧ stride ∣ (i - (i0 + stride)) ∧
              (i - (i0 + stride)) / stride < fuel) := by
            rintro ⟨h1, ⟨q, hq⟩, h3⟩
            have hq2 : (i - (i0 + stride)) / stride = q := by
              rw [hq, Nat.mul_div_cancel_left _ hs]
            apply hcond
            refine ⟨by omega, ⟨q + 1, by rw [Nat.mul_succ]; omega⟩, ?_⟩
            rw [show i - i0 = stride * (q + 1) from by rw [Nat.mul_succ]; omega,
              Nat.mul_div_cancel_left _ hs]
            omega
          rw [if_neg hcond, if_neg hC2]
          apply simWrite_untouched
          intro w hw1 hw2
          exact cell_ne_of_index_ne numSims t w i i0 hi hi0 hii0
    · rw [if_neg hi0, if_neg]
      rintro ⟨h1, -, -⟩
      omega

/-- Reading a cell after a list of lanes has run: the cell of path `i`
holds the canonical product once lane `i % stride` has run, and is
untouched by every other lane. -/
theorem lanes_foldl_read (expQ : ℚ → ℚ) (drift diffusion : ℚ)
    (zOf : ℕ → ℕ → ℚ) (numSims numTimesteps stride : ℕ)
    (hs : 1 ≤ stride) (hN : 1 ≤ numSims)
    (t i : ℕ) (ht : t < numTimesteps) (hi : i < numSims) :
    ∀ l : List ℕ, (∀ x ∈ l, x < stride) → ∀ mem0 : ℕ → ℚ,
      (l.foldl (fun mem tid =>
          laneRun expQ drift diffusion (zOf tid) numSims numTimesteps stride
            numSims tid 0 mem) mem0) (t * numSims + i) =
        if i % stride ∈ l then
          ∏ v in Finset.range (t + 1),
            pathStep expQ drift diffusion
              (zOf (i % stride) ((i / stride) * numTimesteps + v))
        else mem0 (t * numSims + i) := by
  intro l
  induction l with
  | nil =>
    intro _ mem0
    simp
  | cons x l ih =>
    intro hl mem0
    have hx : x < stride := hl x (List.mem_cons_self x l)
    have hl' : ∀ y ∈ l, y < stride := fun y hy => hl y (List.mem_cons_of_mem x hy)
    rw [List.foldl_cons, ih hl']
    by_cases hxi : x = i % stride
    · have hval : laneRun expQ drift diffusion (zOf x) numSims numTimesteps stride
          numSims x 0 mem0 (t * numSims + i) =
          ∏ v in Finset.range (t + 1),
            pathStep expQ drift diffusion
              (zOf (i % stride) ((i / stride) * numTimesteps + v)) := by
        subst hxi
        rw [laneRun_read expQ drift diffusion (zOf (i % stride)) numSims
          numTimesteps stride hs hN numSims (i % stride) 0 mem0 t i ht hi]
        have hdm := Nat.div_add_mod i stride
        have hk : (i - i % stride) / stride = i / stride := by
          rw [show i - i % stride = stride * (i / stride) from by omega,
            Nat.mul_div_cancel_left _ hs]
        have hcond : i % stride ≤ i ∧ stride ∣ (i - i % stride) ∧
            (i - i % stride) / stride < numSims := by
          refine ⟨Nat.mod_le i stride, ⟨i / stride, by omega⟩, ?_⟩
          rw [hk]
          exact Nat.lt_of_le_of_lt (Nat.div_le_self i stride) hi
        rw [if_pos hcond]
        apply Finset.prod_congr rfl
        intro v _
        have harg : 0 + (i - i % stride) / stride * numTimesteps + v =
            i / stride * numTimesteps + v := by
          rw [hk, Nat.zero_add]
        rw [harg]
      by_cases hmem2 : i % stride ∈ l
      · rw [if_pos hmem2, if_pos (List.mem_cons_of_mem x hmem2)]
      · rw [if_neg hmem2, hval, if_pos (by rw [← hxi]; exact List.mem_cons_self x l)]
    · have huntouched : laneRun expQ drift diffusion (zOf x) numSims numTimesteps
          stride numSims x 0 mem0 (t * numSims + i) = mem0 (t * numSims + i) := by
        rw [laneRun_read expQ drift diffusion (zOf x) numSims numTimesteps stride
          hs hN numSims x 0 mem0 t i ht hi]
        rw [if_neg]
        rintro ⟨h1, ⟨q, hq⟩, -⟩
        apply hxi
        have hiq : i = stride * q + x := (Nat.sub_eq_iff_eq_add h1).mp hq
        have : i % stride = x := by
          rw [hiq, Nat.mul_add_mod, Nat.mod_eq_of_lt hx]
        rw [this]
      by_cases hmem2 : i % stride ∈ l
      · rw [if_pos hmem2, if_pos (List.mem_cons_of_mem x hmem2)]
      · rw [if_neg hmem2, huntouched, if_neg]
        rw [List.mem_cons]
        rintro (h | h)
        · exact hxi h.symm
        · exact hmem2 h

/-- Claim C7 (confirmed): for every path index `i` assigned by the
grid-stride distribution and every time step `t`, the path simulator stores
at the column-major location `t * numSims + i` the product of the per-step
multiplicative shocks `exp(drift + diffusion * z)` up to `t`, the path
starting from cumulative value `1` and lane `i % stride` consuming its
draws in path order. -/
theorem c7_generatePaths_product (expQ sqrtQ : ℚ → ℚ) (opt : genericOption)
    (zOf : ℕ → ℕ → ℚ) (numSims numTimesteps stride : ℕ) (mem0 : ℕ → ℚ)
    (t i : ℕ) (hs : 1 ≤ stride) (ht : t < numTimesteps) (hi : i < numSims) :
    generatePaths expQ sqrtQ opt zOf numSims numTimesteps stride mem0
        (t * numSims + i) =
      ∏ v in Finset.range (t + 1),
        pathStep expQ ((opt.r - (1/2) * opt.sigma * opt.sigma) * opt.dt)
          (opt.sigma * sqrtQ opt.dt)
          (zOf (i % stride) ((i / stride) * numTimesteps + v)) := by
  have hN : 1 ≤ numSims := by omega
  have h := lanes_foldl_read expQ
    ((opt.r - (1/2) * opt.sigma * opt.sigma) * opt.dt)
    (opt.sigma * sqrtQ opt.dt) zOf numSims numTimesteps stride hs hN t i ht hi
    (List.range stride) (fun x hx => List.mem_range.mp hx) mem0
  refine h.trans ?_
  rw [if_pos (List.mem_range.mpr (Nat.mod_lt i hs))]

/-- Witness for C7 with one lane, one path, one time step and unit data. -/
theorem c7_generatePaths_product_witness :
    (1 : ℕ) ≤ 1 ∧ (0 : ℕ) < 1 ∧ (0 : ℕ) < 1 ∧
    generatePaths (fun q => q) (fun q => q) callOpt (fun _ _ => 0) 1 1 1
        (fun _ => 0) (0 * 1 + 0) =
      ∏ v in Finset.range (0 + 1),
        pathStep (fun q => q)
          ((callOpt.r - (1/2) * callOpt.sigma * callOpt.sigma) * callOpt.dt)
          (callOpt.sigma * (fun q : ℚ => q) callOpt.dt)
          ((fun _ _ : ℕ => (0 : ℚ)) (0 % 1) ((0 / 1) * 1 + v)) :=
  ⟨le_refl 1, Nat.zero_lt_one, Nat.zero_lt_one,
    c7_generatePaths_product (fun q => q) (fun q => q) callOpt (fun _ _ => 0)
      1 1 1 (fun _ => 0) 0 0 (le_refl 1) Nat.zero_lt_one Nat.zero_lt_one⟩

/-! Resource lifecycle of `PricingEngine::operator()`.  Each fallible
device operation (capability query, precision check, function-attribute
query and block-size check, allocation, memory copy) either succeeds or
fails; the outcome of every such call is recorded in a `DeviceBehavior`.
`engineExit` mirrors the control flow of `operator()`: every failure
`throw`s a `runtime_error` immediately, and the `cudaFree` cleanup block
only runs at the end of the success path. -/

/-- The five device-resident buffers allocated by `operator()`. -/
inductive DevBuf where
  | dOption : DevBuf
  | dPaths : DevBuf
  | dRngStates : DevBuf
  | dValues : DevBuf
  | dValues2 : DevBuf
deriving DecidableEq

/-- Success (`true`) or failure (`false`) of each fallible device call of
`operator()`, listed in program order. -/
structure DeviceBehavior where
  getDeviceProperties : Bool
  precisionSupported : Bool
  setDevice : Bool
  attrInitRNG : Bool
  blockInitRNG : Bool
  attrGeneratePaths : Bool
  blockGeneratePaths : Bool
  attrAsian : Bool
  blockAsian : Bool
  attrPlainVanilla : Bool
  blockPlainVanilla : Bool
  attrKnockoutin : Bool
  blockKnockoutin : Bool
  attrLookback : Bool
  blockLookback : Bool
  mallocOption : Bool
  memcpyOption : Bool
  mallocPaths : Bool
  mallocRngStates : Bool
  mallocValues : Bool
  memcpyPlainVanilla : Bool
  memcpyAsian : Bool
  mallocValues2 : Bool
  memcpyKnockout : Bool
  memcpyKnockin : Bool
  memcpyLookback : Bool

/-- Exit state of one run of `operator()`: the error surfaced to the
caller (if any), the device buffers still allocated at the exit point, and
the buffers freed before exiting. -/
structure RunExit where
  error : Option String
  allocated : List DevBuf
  freed : List DevBuf

/-- An exit through `throw std::runtime_error(msg)`: nothing is freed. -/
def thrown (msg : String) (alloc : List DevBuf) : RunExit :=
  { error := some msg, allocated := alloc, freed := [] }

/-- Sequential early-exit execution of the fallible calls: the first
failing call throws (with the buffers allocated at that point still live,
nothing freed); only when every call succeeds does control reach the
cleanup block at the end of `operator()`, which frees all five buffers. -/
def runChecks : List (Bool × String × List DevBuf) → RunExit
  | [] =>
    { error := none,
      allocated := [],
      freed := [DevBuf.dOption, DevBuf.dPaths, DevBuf.dRngStates,
                DevBuf.dValues, DevBuf.dValues2] }
  | (ok, msg, alloc) :: rest =>
    if ok then runChecks rest else thrown msg alloc

/-- The fallible calls of `PricingEngine::operator()` in program order,
each with the error message it throws on failure and the device buffers
already allocated (and hence leaked) at that point. -/
def engineChecks (b : DeviceBehavior) : List (Bool × String × List DevBuf) :=
  [(b.getDeviceProperties, "Could not get device properties", []),
   (b.precisionSupported, "Device does not have double precision support", []),
   (b.setDevice, "Could not set CUDA device", []),
   (b.attrInitRNG, "Could not get function attributes", []),
   (b.blockInitRNG, "Block X dimension is too large for initRNG kernel", []),
   (b.attrGeneratePaths, "Could not get function attributes", []),
   (b.blockGeneratePaths, "Block X dimension is too large for generatePaths kernel", []),
   (b.attrAsian, "Could not get function attributes", []),
   (b.blockAsian, "Block X dimension is too large for computeValueAsian kernel", []),
   (b.attrPlainVanilla, "Could not get function attributes", []),
   (b.blockPlainVanilla, "Block X dimension is too large for computeValuePlainVanilla kernel", []),
   (b.attrKnockoutin, "Could not get function attributes", []),
   (b.blockKnockoutin, "Block X dimension is too large for computeValueKnockoutin kernel", []),
   (b.attrLookback, "Could not get function attributes", []),
   (b.blockLookback, "Block X dimension is too large for computeValueLookback kernel", []),
   (b.mallocOption, "Could not allocate memory on device for option data", []),
   (b.memcpyOption, "Could not copy data to device", [DevBuf.dOption]),
   (b.mallocPaths, "Could not allocate memory on device for paths",
     [DevBuf.dOption]),
   (b.mallocRngStates, "Could not allocate memory on device for RNG state",
     [DevBuf.dOption, DevBuf.dPaths]),
   (b.mallocValues, "Could not allocate memory on device for partial results",
     [DevBuf.dOption, DevBuf.dPaths, DevBuf.dRngStates]),
   (b.memcpyPlainVanilla, "Could not copy partial results to host",
     [DevBuf.dOption, DevBuf.dPaths, DevBuf.dRngStates, DevBuf.dValues]),
   (b.memcpyAsian, "Could not copy partial results to host",
     [DevBuf.dOption, DevBuf.dPaths, DevBuf.dRngStates, DevBuf.dValues]),
   (b.mallocValues2, "Could not allocate memory on device for partial results",
     [DevBuf.dOption, DevBuf.dPaths, DevBuf.dRngStates, DevBuf.dValues]),
   (b.memcpyKnockout, "Could not copy partial results to host",
     [DevBuf.dOption, DevBuf.dPaths, DevBuf.dRngStates, DevBuf.dValues,
      DevBuf.dValues2]),
   (b.memcpyKnockin, "Could not copy partial results to host",
     [DevBuf.dOption, DevBuf.dPaths, DevBuf.dRngStates, DevBuf.dValues,
      DevBuf.dValues2]),
   (b.memcpyLookback, "Could not copy partial results to host",
     [DevBuf.dOption, DevBuf.dPaths, DevBuf.dRngStates, DevBuf.dValues,
      DevBuf.dValues2])]

/-- The buffer lifecycle of `PricingEngine::operator()`. -/
def engineExit (b : DeviceBehavior) : RunExit :=
  runChecks (engineChecks b)

/-- The all-successful device behavior. -/
def allOk : DeviceBehavior :=
  ⟨true, true, true, true, true, true, true, true, true, true, true, true,
    true, true, true, true, true, true, true, true, true, true, true, true,
    true, true⟩

/-- Claim C6, counterexample: when the first partial-result copy fails with
four buffers already allocated, `operator()` throws with all four buffers
still allocated and none freed — already-acquired resources are not
released before the error is surfaced. -/
theorem c6_leak_on_error_counterexample :
    (engineExit { allOk with memcpyPlainVanilla := false }).error =
      some "Could not copy partial results to host" ∧
    (engineExit { allOk with memcpyPlainVanilla := false }).allocated =
      [DevBuf.dOption, DevBuf.dPaths, DevBuf.dRngStates, DevBuf.dValues] ∧
    (engineExit { allOk with memcpyPlainVanilla := false }).freed = [] :=
  ⟨rfl, rfl, rfl⟩

/-- Every run of the engine either throws or succeeds with all five
buffers freed. -/
theorem runChecks_cases (l : List (Bool × String × List DevBuf)) :
    (∃ msg alloc, runChecks l = thrown msg alloc) ∨
    runChecks l = { error := none,
                    allocated := [],
                    freed := [DevBuf.dOption, DevBuf.dPaths,
                              DevBuf.dRngStates, DevBuf.dValues,
                              DevBuf.dValues2] } := by
  induction l with
  | nil => exact Or.inr rfl
  | cons c rest ih =>
    rcases c with ⟨ok, msg, alloc⟩
    cases ok
    · exact Or.inl ⟨msg, alloc, rfl⟩
    · rw [show runChecks ((true, msg, alloc) :: rest) = runChecks rest from rfl]
      exact ih

/-- Every run of the engine either throws or succeeds with all five
buffers freed. -/
theorem engineExit_cases (b : DeviceBehavior) :
    (∃ msg alloc, engineExit b = thrown msg alloc) ∨
    engineExit b = { error := none,
                     allocated := [],
                     freed := [DevBuf.dOption, DevBuf.dPaths,
                               DevBuf.dRngStates, DevBuf.dValues,
                               DevBuf.dValues2] } :=
  runChecks_cases (engineChecks b)

/-- Claim C6 (amended): the five device buffers are released only on the
successful exit path; every error exit throws immediately and releases
nothing — the already-allocated buffers are leaked, not freed.  (On
success, all five buffers are freed and none remains allocated.) -/
theorem c6_cleanup_amended (b : DeviceBehavior) :
    ((engineExit b).freed =
      if (engineExit b).error = none then
        [DevBuf.dOption, DevBuf.dPaths, DevBuf.dRngStates, DevBuf.dValues,
          DevBuf.dValues2]
      else []) ∧
    ((engineExit b).error = none → (engineExit b).allocated = []) := by
  rcases engineExit_cases b with ⟨msg, alloc, h⟩ | h <;> rw [h] <;> simp [thrown]

/-- Witness for C6 at the all-successful behavior. -/
theorem c6_cleanup_witness :
    ((engineExit allOk).freed =
      if (engineExit allOk).error = none then
        [DevBuf.dOption, DevBuf.dPaths, DevBuf.dRngStates, DevBuf.dValues,
          DevBuf.dValues2]
      else []) ∧
    (engineExit allOk).allocated = [] :=
  ⟨(c6_cleanup_amended allOk).1, (c6_cleanup_amended allOk).2 rfl⟩

end MonteCarlo
